import Mathlib

/-!
# Verification of the freedns-go core (kookxiang/freedns-go)

Shallow embedding of the dispatch proxy's core, translated from
`freedns/freedns.go` (the lookup orchestrator, request handler and server
construction) together with models of the collaborators the orchestrator
calls into.  The lazy LRU cache and the spoofing-proof resolver are not part
of the visible sources; their definitions below are modelled from the spec
and carry a doc comment saying so.

Go machine integers here are plain `Nat` (DNS rcodes and record types are
small constants, no overflow is reachable), Go strings are either Lean
`String` (used only as opaque labels and keys) or `List Char` where the code
inspects characters (`appendDefaultPort`).
-/

namespace FreeDNS

/-! ## Constants from the miekg/dns protocol library -/

def RcodeSuccess : Nat := 0
def RcodeServerFailure : Nat := 2
def RcodeBadName : Nat := 20
def TypeA : Nat := 1
def TypeAAAA : Nat := 28

/-! ## Data model (dns.Question, dns.RR, dns.Msg) -/

/-- A DNS question: name, record type and record class
(Go field `Qclass` is spelled `qcls` here). -/
structure Question where
  name : String
  qtype : Nat
  qcls : Nat
deriving DecidableEq, Repr

instance : Inhabited Question := ⟨⟨"", 0, 0⟩⟩

/-- A resource record, reduced to the fields the core inspects: type, TTL and
(for A/AAAA records) the resolved address, abstracted as a `Nat`. -/
structure RR where
  rname : String
  rrtype : Nat
  ttl : Nat
  addr : Nat
deriving DecidableEq, Repr

instance : Inhabited RR := ⟨⟨"", 0, 0, 0⟩⟩

/-- A DNS message (`dns.Msg`), reduced to the fields the core reads or
writes: header id, response flag, rcode, recursion-desired flag, question
section and answer section. -/
structure Msg where
  id : Nat
  response : Bool
  rcode : Nat
  recursionDesired : Bool
  question : List Question
  answer : List RR
deriving DecidableEq, Repr

instance : Inhabited Msg := ⟨⟨0, false, 0, false, [], []⟩⟩

/-- `dns.Msg.SetReply` from the protocol library: copies the request id and
recursion-desired bit, marks the message as a response, resets the rcode to
success, and copies the first question of the request when one is present. -/
def Msg.setReply (res req : Msg) : Msg :=
  { res with
    id := req.id
    response := true
    rcode := RcodeSuccess
    recursionDesired := req.recursionDesired
    question := if req.question.isEmpty then res.question else req.question.take 1 }

/-- `dns.Msg.SetRcode` from the protocol library: `SetReply` followed by
overwriting the rcode. -/
def Msg.setRcode (res req : Msg) (rcode : Nat) : Msg :=
  { res.setReply req with rcode := rcode }

/-! ## appendDefaultPort (freedns.go lines 42-47)

`strings.Contains(s, ".")` with a one-character pattern is character
membership, so the Go string is embedded as `List Char`. -/

def goContains (s : List Char) (c : Char) : Bool := s.contains c

/-- Translation of `appendDefaultPort`: append ":53" when the string has a
dot and no colon. -/
def appendDefaultPort (ip : List Char) : List Char :=
  if goContains ip '.' && !goContains ip ':' then ip ++ [':', '5', '3'] else ip

/-! ## Lookup orchestrator (Server.lookup, freedns.go lines 149-188)

The cache and resolver bodies are not in the visible sources, so the
orchestrator is embedded parametrically in the two callbacks the source
invokes: `resolver.resolve(question, recursionDesired, net)` returning a
message and an upstream label, and `recordsCache.lookup(question,
recursionDesired, net)` returning an optional cached message and the
needs-refresh flag.  The side effects the source performs (synchronous
resolver calls, synchronous `cache.set` calls, the detached refresh
goroutine and the calls that goroutine makes when it runs) are recorded
explicitly in a trace. -/

abbrev Resolver := Question → Bool → String → Msg × String

abbrev CacheLookupFn := Question → Bool → String → Option Msg × Bool

/-- The observable behaviour of one `Server.lookup` call: the reply and
upstream label returned to the caller, the calls made synchronously, and the
detached background-refresh task (whether one is spawned and what it does
when it eventually runs). -/
structure LookupTrace where
  res : Msg
  upstream : String
  syncResolveCalls : Nat
  syncSetCalls : List Msg
  bgSpawned : Bool
  bgResolveCalls : Nat
  bgSetCalls : List Msg
deriving DecidableEq, Repr

/-- Translation of `Server.lookup`: consult the cache; on a hit return the
cached message labelled "cache" (spawning a detached refresh goroutine when
the entry needs refresh); on a miss resolve synchronously, cache the result
iff its rcode is success, and return it with the resolver's label.  In all
cases the rcode of the chosen answer is saved, `SetReply(req)` is applied,
and the rcode is restored (lines 183-186). -/
def Server.lookup (resolver : Resolver) (cacheLookup : CacheLookupFn)
    (req : Msg) (net : String) : LookupTrace :=
  match cacheLookup (req.question.headD default) req.recursionDesired net with
  | (some res, upd) =>
    { res := { res.setReply req with rcode := res.rcode }
      upstream := "cache"
      syncResolveCalls := 0
      syncSetCalls := []
      bgSpawned := upd
      bgResolveCalls := if upd then 1 else 0
      bgSetCalls :=
        if upd then
          if (resolver (req.question.headD default) req.recursionDesired net).1.rcode
              = RcodeSuccess then
            [(resolver (req.question.headD default) req.recursionDesired net).1]
          else []
        else [] }
  | (none, _) =>
    let r := resolver (req.question.headD default) req.recursionDesired net
    { res := { r.1.setReply req with rcode := r.1.rcode }
      upstream := r.2
      syncResolveCalls := 1
      syncSetCalls := if r.1.rcode = RcodeSuccess then [r.1] else []
      bgSpawned := false
      bgResolveCalls := 0
      bgSetCalls := [] }

/-- Translation of `Server.handle` (lines 115-144): a request without
questions is answered with `SetRcode(req, dns.RcodeBadName)` on a fresh
zero message and the orchestrator is never invoked (`none`); otherwise the
orchestrator runs and its reply is written back. -/
def Server.handle (resolver : Resolver) (cacheLookup : CacheLookupFn)
    (req : Msg) (net : String) : Msg × Option LookupTrace :=
  if req.question.length < 1 then
    (Msg.setRcode default req RcodeBadName, none)
  else
    let t := Server.lookup resolver cacheLookup req net
    (t.res, some t)

/-! ## Lazy LRU cache

The `dnsCache` implementation is not in the visible sources (only the
orchestrator's calls to it are), so the cache is modelled from the spec
(sections 3, 4.3): a capacity-bounded store keyed by (question name, type,
class, recursion-desired flag, transport), serving present entries
immediately with a needs-refresh flag, evicting the least-recently-used
entry on insertion of a new key at capacity.  Recency is represented by
list order, most recent first: the least-recently-used entry is the last
element.  Time is an abstract `Nat` clock passed to each operation. -/

/-- Modelled from the spec: the cache key — question name, record type,
record class, the recursion-desired flag and the transport the query
arrived on. -/
structure CacheKey where
  name : String
  qtype : Nat
  qcls : Nat
  rd : Bool
  net : String
deriving DecidableEq, Repr

/-- The cache key of a question under a recursion-desired flag and
transport. -/
def Question.cacheKey (q : Question) (rd : Bool) (net : String) : CacheKey :=
  ⟨q.name, q.qtype, q.qcls, rd, net⟩

/-- Modelled from the spec: a cache entry owns one answer and its absolute
expiry timestamp (insertion time plus effective TTL). -/
structure CacheEntry where
  answer : Msg
  expire : Nat
deriving DecidableEq, Repr

/-- Modelled from the spec: the short default TTL used when an answer has
no records or a zero minimum TTL (the exact floor is an unspecified small
constant; spec section 9). -/
def defaultTTL : Nat := 3

/-- Modelled from the spec: the effective TTL of an answer — the minimum
TTL across its records, with zero-or-absent records replaced by the
default floor. -/
def effectiveTTL (m : Msg) : Nat :=
  match m.answer with
  | [] => defaultTTL
  | r :: rs =>
    let t := (rs.map RR.ttl).foldl Nat.min r.ttl
    if t = 0 then defaultTTL else t

/-- Modelled from the spec: the bounded lazy cache — a fixed capacity and
an association list of entries, most recently used first. -/
structure DnsCache where
  cap : Nat
  entries : List (CacheKey × CacheEntry)
deriving DecidableEq, Repr

/-- `newDNSCache`: an empty cache of the given capacity. -/
def newDNSCache (cap : Nat) : DnsCache := ⟨cap, []⟩

/-- The keys currently stored, in recency order. -/
def DnsCache.keys (c : DnsCache) : List CacheKey := c.entries.map Prod.fst

/-- Modelled from the spec: `cache.lookup` — a present entry is returned
immediately regardless of expiry, with needs-refresh true iff the expiry
timestamp is in the past; the touched entry moves to the front of the
recency order.  A miss returns `(none, false)` and leaves the cache
unchanged. -/
def DnsCache.lookup (c : DnsCache) (now : Nat) (k : CacheKey) :
    (Option Msg × Bool) × DnsCache :=
  match c.entries.find? (fun p => decide (p.1 = k)) with
  | none => ((none, false), c)
  | some p =>
    ((some p.2.answer, decide (p.2.expire < now)),
      ⟨c.cap, (k, p.2) :: c.entries.filter (fun p => !decide (p.1 = k))⟩)

/-- Modelled from the spec: `cache.set` — compute the effective TTL and
create or overwrite the entry for the key; only when a brand-new key is
inserted with the store at capacity is the least-recently-used entry (the
last in recency order) evicted. -/
def DnsCache.set (c : DnsCache) (now : Nat) (k : CacheKey) (m : Msg) : DnsCache :=
  let e : CacheEntry := ⟨m, now + effectiveTTL m⟩
  if c.entries.any (fun p => decide (p.1 = k)) then
    ⟨c.cap, (k, e) :: c.entries.filter (fun p => !decide (p.1 = k))⟩
  else
    ⟨c.cap, (k, e) :: (if c.cap ≤ c.entries.length then c.entries.dropLast else c.entries)⟩

/-- One cache operation: a lookup or a set, each at some time instant. -/
inductive CacheOp where
  | look (now : Nat) (k : CacheKey)
  | put (now : Nat) (k : CacheKey) (m : Msg)
deriving DecidableEq, Repr

/-- Run a sequence of cache operations, threading the cache state. -/
def DnsCache.run (c : DnsCache) : List CacheOp → DnsCache
  | [] => c
  | CacheOp.look now k :: ops => ((c.lookup now k).2).run ops
  | CacheOp.put now k m :: ops => (c.set now k m).run ops

/-! ## Resolver arbiter

`spoofingProofResolver.resolve` is not in the visible sources; it is
modelled from the spec (section 4.2).  The two upstream transports are
inputs: `none` stands for a transport failure or timeout, `some m` for a
decoded response message.  The China-IP classifier is an arbitrary
predicate over the abstract address payload. -/

/-- An address-type query: type A or AAAA. -/
def isAddressQuery (q : Question) : Bool :=
  q.qtype == TypeA || q.qtype == TypeAAAA

/-- Whether some A/AAAA record of the answer resolves to an address the
classifier marks as domestic. -/
def hasDomesticAddress (isDomestic : Nat → Bool) (m : Msg) : Bool :=
  m.answer.any fun rr => (rr.rrtype == TypeA || rr.rrtype == TypeAAAA) && isDomestic rr.addr

/-- The server-failure answer produced when no upstream response is
available. -/
def servFail (q : Question) : Msg :=
  { (default : Msg) with rcode := RcodeServerFailure, question := [q] }

/-- Modelled from the spec: once the clean upstream is consulted its answer
is returned labelled "clean" regardless of status; if its transport also
failed, a server-failure answer is returned. -/
def cleanFallback (clean : Option Msg) (q : Question) : Msg × String :=
  match clean with
  | some c => (c, "clean")
  | none => (servFail q, "clean")

/-- Modelled from the spec: `resolve` — trust the fast upstream's answer
(labelled "fast") iff its transport succeeded, its status is success, and
either the question is not an address-type query or some resolved address
classifies as domestic; in every other case fall back to the clean
upstream. -/
def resolve (isDomestic : Nat → Bool) (fast clean : Option Msg) (q : Question) :
    Msg × String :=
  match fast with
  | some f =>
    if f.rcode == RcodeSuccess && (!isAddressQuery q || hasDomesticAddress isDomestic f)
    then (f, "fast")
    else cleanFallback clean q
  | none => cleanFallback clean q

/-! ## Server construction (NewServer, freedns.go lines 50-85) -/

/-- The `Config` structure: upstream addresses, listen address, cache
capacity and log level, with the string fields as character lists so that
`appendDefaultPort` applies to them. -/
structure Config where
  FastDNS : List Char
  CleanDNS : List Char
  Listen : List Char
  CacheCap : Nat
  LogLevel : List Char
deriving DecidableEq, Repr

/-- `logrus.ParseLevel` from the logging library: recognises the seven
level names, anything else is a parse error (`none`). -/
def parseLevel (s : List Char) : Option Nat :=
  if s = "panic".toList then some 0
  else if s = "fatal".toList then some 1
  else if s = "error".toList then some 2
  else if s = "warn".toList then some 3
  else if s = "warning".toList then some 3
  else if s = "info".toList then some 4
  else if s = "debug".toList then some 5
  else if s = "trace".toList then some 6
  else none

/-- The observable outcome of `NewServer`: the final configuration stored
in the server and the log level that was applied to the global logger
(`none` when `ParseLevel` failed and the level was left untouched). -/
structure ServerInit where
  config : Config
  appliedLogLevel : Option Nat
deriving DecidableEq, Repr

/-- Translation of `NewServer`: default an empty listen address to
"127.0.0.1", set the log level only when it parses, append default ports,
and always return a server with a nil error. -/
def NewServer (cfg : Config) : Except String ServerInit :=
  let listen0 := if cfg.Listen = [] then "127.0.0.1".toList else cfg.Listen
  Except.ok
    { config :=
        { cfg with
          Listen := appendDefaultPort listen0
          FastDNS := appendDefaultPort cfg.FastDNS
          CleanDNS := appendDefaultPort cfg.CleanDNS }
      appliedLogLevel := parseLevel cfg.LogLevel }

/-! ## Sample values used to instantiate theorems at concrete inputs -/

/-- A sample A-type question. -/
def sampleQ : Question := ⟨"example.com.", TypeA, 1⟩

/-- A second, distinct sample question. -/
def sampleQ2 : Question := ⟨"other.com.", TypeA, 1⟩

/-- The cache key of `sampleQ` over UDP with recursion desired. -/
def sampleKey : CacheKey := ⟨"example.com.", TypeA, 1, true, "udp"⟩

/-- A second, distinct cache key. -/
def sampleKey2 : CacheKey := ⟨"other.com.", TypeA, 1, true, "udp"⟩

/-- A successful answer carrying one A record with TTL 1. -/
def ttl1Msg : Msg :=
  { (default : Msg) with
    rcode := RcodeSuccess
    question := [sampleQ]
    answer := [⟨"example.com.", TypeA, 1, 1⟩] }

/-- A successful cached answer with a distinctive id. -/
def cachedMsg : Msg :=
  { (default : Msg) with
    id := 7
    rcode := RcodeSuccess
    question := [sampleQ]
    answer := [⟨"example.com.", TypeA, 60, 1⟩] }

/-- A request carrying the sample question. -/
def reqMsg : Msg := { (default : Msg) with id := 42, question := [sampleQ] }

/-- The property that every entry stored in the cache carries a
success-status answer. -/
def allSuccess (c : DnsCache) : Prop :=
  ∀ p ∈ c.entries, p.2.answer.rcode = RcodeSuccess

/-- The list of put operations inserting the given keys in order, at one
time instant, with answers drawn from `f`. -/
def puts (t : Nat) (f : CacheKey → Msg) (ks : List CacheKey) : List CacheOp :=
  ks.map fun k => CacheOp.put t k (f k)

/-! ## Theorems -/

/-- C9: appendDefaultPort is idempotent — ":53" is appended exactly when
the string contains a dot and no colon, and the appended result always
contains a colon, so a second application changes nothing. -/
theorem appendDefaultPort_idem (s : List Char) :
    appendDefaultPort (appendDefaultPort s) = appendDefaultPort s := by
  unfold appendDefaultPort
  by_cases h : (goContains s '.' && !goContains s ':') = true
  · have hc : goContains (s ++ [':', '5', '3']) ':' = true := by
      simp [goContains, List.contains_eq_any_beq]
    simp [h, hc]
  · simp [h]

/-- C10: NewServer never fails — for every Config it returns a server with
a nil error, the listen address is defaulted to "127.0.0.1" when empty
(then port-appended like the upstream addresses), and the applied log level
is exactly what ParseLevel yields, so an unparseable LogLevel is silently
ignored rather than reported. -/
theorem NewServer_total (cfg : Config) :
    ∃ s, NewServer cfg = Except.ok s ∧
      s.config.Listen =
        appendDefaultPort (if cfg.Listen = [] then "127.0.0.1".toList else cfg.Listen) ∧
      s.appliedLogLevel = parseLevel cfg.LogLevel :=
  ⟨_, rfl, rfl, rfl⟩

/-- C7: a request without questions is answered by Server.handle with a
bad-name rcode reply and the lookup orchestrator is never invoked, so
neither the cache nor any upstream resolver is consulted. -/
theorem handle_no_question (resolver : Resolver) (cl : CacheLookupFn) (req : Msg)
    (net : String) (h : req.question = []) :
    Server.handle resolver cl req net = (Msg.setRcode default req RcodeBadName, none) ∧
    (Msg.setRcode default req RcodeBadName).rcode = RcodeBadName := by
  constructor
  · simp [Server.handle, h]
  · simp [Msg.setRcode]

theorem handle_no_question_witness :
    Server.handle (fun _ _ _ => (default, "fast")) (fun _ _ _ => (none, false))
        (default : Msg) "udp"
      = (Msg.setRcode default (default : Msg) RcodeBadName, none) :=
  (handle_no_question (fun _ _ _ => (default, "fast")) (fun _ _ _ => (none, false))
    (default : Msg) "udp" rfl).1

/-- C4: the resolver arbiter returns the fast upstream's answer labelled
"fast" exactly when that answer has success status and either the question
is not an address-type query or some resolved address classifies as
domestic; in every other case (no domestic address, fast transport failure,
or non-success fast status) it returns the clean upstream's answer labelled
"clean" regardless of the clean answer's status. -/
theorem resolve_arbitration (isDom : Nat → Bool) (fast clean : Option Msg) (q : Question) :
    (∀ f, fast = some f → f.rcode = RcodeSuccess →
      (isAddressQuery q = false ∨ hasDomesticAddress isDom f = true) →
      resolve isDom fast clean q = (f, "fast")) ∧
    (∀ f c, fast = some f → clean = some c →
      ¬(f.rcode = RcodeSuccess ∧
        (isAddressQuery q = false ∨ hasDomesticAddress isDom f = true)) →
      resolve isDom fast clean q = (c, "clean")) ∧
    (∀ c, fast = none → clean = some c →
      resolve isDom fast clean q = (c, "clean")) := by
  refine ⟨?_, ?_, ?_⟩
  · rintro f rfl hrc htrust
    have hb : (f.rcode == RcodeSuccess &&
        (!isAddressQuery q || hasDomesticAddress isDom f)) = true := by
      rcases htrust with h | h <;> simp [hrc, h]
    simp [resolve, hb]
  · rintro f c rfl rfl hneg
    cases hb : (f.rcode == RcodeSuccess &&
        (!isAddressQuery q || hasDomesticAddress isDom f)) with
    | true =>
      exfalso
      apply hneg
      simp only [Bool.and_eq_true, Bool.or_eq_true, Bool.not_eq_true', beq_iff_eq] at hb
      exact ⟨hb.1, hb.2⟩
    | false => simp [resolve, hb, cleanFallback]
  · rintro c rfl rfl
    simp [resolve, cleanFallback]

theorem resolve_arbitration_witness :
    resolve (fun a => a == 1) (some ttl1Msg) (some (servFail sampleQ)) sampleQ
      = (ttl1Msg, "fast") :=
  (resolve_arbitration (fun a => a == 1) (some ttl1Msg) (some (servFail sampleQ))
    sampleQ).1 ttl1Msg rfl rfl (Or.inr (by decide))

/-- After a set, the freshly written entry sits at the front of the
recency order. -/
lemma set_entries_cons (c : DnsCache) (now : Nat) (k : CacheKey) (m : Msg) :
    ∃ tl, (c.set now k m).entries = (k, ⟨m, now + effectiveTTL m⟩) :: tl := by
  unfold DnsCache.set
  by_cases h : (c.entries.any fun p => decide (p.1 = k)) = true <;>
    simp [h]

/-- C5: a present cache entry is returned immediately regardless of expiry
and the needs-refresh flag is true iff the expiry timestamp is in the past;
in particular an entry inserted with effective TTL 1 and looked up after
that TTL has elapsed is a present, needs-refresh hit rather than a miss. -/
theorem cache_lazy_lookup :
    (∀ (c : DnsCache) (now : Nat) (k : CacheKey) (p : CacheKey × CacheEntry),
      c.entries.find? (fun x => decide (x.1 = k)) = some p →
      (c.lookup now k).1.1 = some p.2.answer ∧
      ((c.lookup now k).1.2 = true ↔ p.2.expire < now)) ∧
    (∀ (c : DnsCache) (t0 t : Nat) (k : CacheKey) (m : Msg),
      effectiveTTL m = 1 → t0 + 1 < t →
      ((c.set t0 k m).lookup t k).1 = (some m, true)) := by
  constructor
  · intro c now k p hf
    unfold DnsCache.lookup
    rw [hf]
    simp
  · intro c t0 t k m httl hlt
    obtain ⟨tl, htl⟩ := set_entries_cons c t0 k m
    unfold DnsCache.lookup
    rw [htl]
    simp [List.find?, httl, hlt]

theorem cache_lazy_lookup_witness :
    (((newDNSCache 10).set 0 sampleKey ttl1Msg).lookup 2 sampleKey).1
      = (some ttl1Msg, true) :=
  cache_lazy_lookup.2 (newDNSCache 10) 0 2 sampleKey ttl1Msg (by decide) (by decide)

/-- C1: on a cache hit, Server.lookup returns the cached answer (with the
reply header applied and its rcode preserved) labelled "cache", makes no
synchronous resolver or cache-set call; when the entry is fresh no
background task exists either, and when it is stale a detached task is
spawned that resolves once and caches the result exactly when its rcode is
success; the value returned to the caller does not depend on the resolver
at all. -/
theorem lookup_cache_hit (resolver : Resolver) (cl : CacheLookupFn) (req : Msg)
    (net : String) (q : Question) (qs : List Question) (a : Msg) (upd : Bool)
    (hq : req.question = q :: qs)
    (hc : cl q req.recursionDesired net = (some a, upd)) :
    (Server.lookup resolver cl req net).upstream = "cache" ∧
    (Server.lookup resolver cl req net).res = { a.setReply req with rcode := a.rcode } ∧
    (Server.lookup resolver cl req net).syncResolveCalls = 0 ∧
    (Server.lookup resolver cl req net).syncSetCalls = [] ∧
    (upd = false →
      (Server.lookup resolver cl req net).bgSpawned = false ∧
      (Server.lookup resolver cl req net).bgResolveCalls = 0 ∧
      (Server.lookup resolver cl req net).bgSetCalls = []) ∧
    (upd = true →
      (Server.lookup resolver cl req net).bgSpawned = true ∧
      (Server.lookup resolver cl req net).bgResolveCalls = 1 ∧
      (Server.lookup resolver cl req net).bgSetCalls =
        (if (resolver q req.recursionDesired net).1.rcode = RcodeSuccess
          then [(resolver q req.recursionDesired net).1] else [])) ∧
    (∀ resolver2 : Resolver,
      (Server.lookup resolver2 cl req net).res = (Server.lookup resolver cl req net).res ∧
      (Server.lookup resolver2 cl req net).upstream
        = (Server.lookup resolver cl req net).upstream) := by
  refine ⟨?_, ?_, ?_, ?_, ?_, ?_, ?_⟩
  · simp [Server.lookup, hq, hc]
  · simp [Server.lookup, hq, hc]
  · simp [Server.lookup, hq, hc]
  · simp [Server.lookup, hq, hc]
  · rintro rfl
    simp [Server.lookup, hq, hc]
  · rintro rfl
    simp [Server.lookup, hq, hc]
  · intro resolver2
    constructor <;> simp [Server.lookup, hq, hc]

theorem lookup_cache_hit_witness :
    (Server.lookup (fun _ _ _ => (ttl1Msg, "fast")) (fun _ _ _ => (some cachedMsg, true))
      reqMsg "udp").upstream = "cache" :=
  (lookup_cache_hit (fun _ _ _ => (ttl1Msg, "fast")) (fun _ _ _ => (some cachedMsg, true))
    reqMsg "udp" sampleQ [] cachedMsg true rfl rfl).1

/-- C2: on a cache miss, Server.lookup resolves synchronously exactly once,
passes the result to cache.set iff its rcode is success, and returns the
resolver's answer (reply header applied, rcode preserved) with the
resolver-supplied upstream label in every case, never spawning a
background task. -/
theorem lookup_cache_miss (resolver : Resolver) (cl : CacheLookupFn) (req : Msg)
    (net : String) (q : Question) (qs : List Question) (b : Bool)
    (hq : req.question = q :: qs)
    (hc : cl q req.recursionDesired net = (none, b)) :
    (Server.lookup resolver cl req net).res =
      { (resolver q req.recursionDesired net).1.setReply req
        with rcode := (resolver q req.recursionDesired net).1.rcode } ∧
    (Server.lookup resolver cl req net).upstream = (resolver q req.recursionDesired net).2 ∧
    (Server.lookup resolver cl req net).syncResolveCalls = 1 ∧
    (Server.lookup resolver cl req net).syncSetCalls =
      (if (resolver q req.recursionDesired net).1.rcode = RcodeSuccess
        then [(resolver q req.recursionDesired net).1] else []) ∧
    (Server.lookup resolver cl req net).bgSpawned = false ∧
    (Server.lookup resolver cl req net).bgResolveCalls = 0 ∧
    (Server.lookup resolver cl req net).bgSetCalls = [] := by
  refine ⟨?_, ?_, ?_, ?_, ?_, ?_, ?_⟩ <;> simp [Server.lookup, hq, hc]

theorem lookup_cache_miss_witness :
    (Server.lookup (fun _ _ _ => (ttl1Msg, "fast")) (fun _ _ _ => (none, false))
      reqMsg "udp").upstream = "fast" :=
  (lookup_cache_miss (fun _ _ _ => (ttl1Msg, "fast")) (fun _ _ _ => (none, false))
    reqMsg "udp" sampleQ [] false rfl rfl).2.1

/-- C8: for a request with at least one question, the message Server.lookup
returns carries exactly the rcode of the answer obtained from the cache or
the resolver — SetReply alone would overwrite it with success, but the
saved rcode is restored after SetReply is applied. -/
theorem lookup_rcode_preserved (resolver : Resolver) (cl : CacheLookupFn) (req : Msg)
    (net : String) (q : Question) (qs : List Question)
    (hq : req.question = q :: qs) :
    (∀ a upd, cl q req.recursionDesired net = (some a, upd) →
      (Server.lookup resolver cl req net).res.rcode = a.rcode ∧
      (Server.lookup resolver cl req net).res = { a.setReply req with rcode := a.rcode } ∧
      (a.setReply req).rcode = RcodeSuccess) ∧
    (∀ b, cl q req.recursionDesired net = (none, b) →
      (Server.lookup resolver cl req net).res.rcode
        = (resolver q req.recursionDesired net).1.rcode ∧
      (Server.lookup resolver cl req net).res
        = { (resolver q req.recursionDesired net).1.setReply req
            with rcode := (resolver q req.recursionDesired net).1.rcode } ∧
      ((resolver q req.recursionDesired net).1.setReply req).rcode = RcodeSuccess) := by
  constructor
  · intro a upd hc
    refine ⟨?_, ?_, ?_⟩ <;> simp [Server.lookup, Msg.setReply, hq, hc]
  · intro b hc
    refine ⟨?_, ?_, ?_⟩ <;> simp [Server.lookup, Msg.setReply, hq, hc]

theorem lookup_rcode_preserved_witness :
    (Server.lookup (fun _ _ _ => (ttl1Msg, "fast"))
      (fun _ _ _ => (some (servFail sampleQ), false)) reqMsg "udp").res.rcode
      = (servFail sampleQ).rcode :=
  ((lookup_rcode_preserved (fun _ _ _ => (ttl1Msg, "fast"))
    (fun _ _ _ => (some (servFail sampleQ), false)) reqMsg "udp" sampleQ [] rfl).1
    (servFail sampleQ) false rfl).1

/-- C3: no path of the orchestrator passes a non-success answer to
cache.set, the cache keeps its all-success invariant under such sets, and a
lookup on an all-success cache can never return a server-failure answer —
so a server-failure resolution is never retrievable from the cache. -/
theorem no_negative_caching :
    (∀ (resolver : Resolver) (cl : CacheLookupFn) (req : Msg) (net : String) (m : Msg),
      m ∈ (Server.lookup resolver cl req net).syncSetCalls ++
          (Server.lookup resolver cl req net).bgSetCalls →
      m.rcode = RcodeSuccess) ∧
    (∀ (c : DnsCache) (now : Nat) (k : CacheKey) (m : Msg),
      allSuccess c → m.rcode = RcodeSuccess → allSuccess (c.set now k m)) ∧
    (∀ (c : DnsCache) (now : Nat) (k : CacheKey) (a : Msg),
      allSuccess c → (c.lookup now k).1.1 = some a →
      a.rcode ≠ RcodeServerFailure) := by
  refine ⟨?_, ?_, ?_⟩
  · intro resolver cl req net m hm
    rcases h : cl (req.question.headD default) req.recursionDesired net with ⟨o, upd⟩
    cases o with
    | some a =>
      simp only [Server.lookup, h, List.append_nil, List.nil_append] at hm
      cases upd with
      | false => simp at hm
      | true =>
        simp at hm
        rw [hm.2]
        exact hm.1
    | none =>
      simp only [Server.lookup, h, List.append_nil, List.nil_append] at hm
      simp at hm
      rw [hm.2]
      exact hm.1
  · intro c now k m hall hm p hp
    simp only [DnsCache.set] at hp
    split at hp
    · rcases List.mem_cons.mp hp with rfl | hp'
      · exact hm
      · exact hall p (List.mem_of_mem_filter hp')
    · rcases List.mem_cons.mp hp with rfl | hp'
      · exact hm
      · split at hp'
        · exact hall p (List.dropLast_subset _ hp')
        · exact hall p hp'
  · intro c now k a hall hl
    unfold DnsCache.lookup at hl
    cases hf : c.entries.find? (fun p => decide (p.1 = k)) with
    | none => rw [hf] at hl; simp at hl
    | some p =>
      rw [hf] at hl
      simp at hl
      have hp := hall p (List.mem_of_find?_eq_some hf)
      rw [← hl, hp]
      simp [RcodeSuccess, RcodeServerFailure]

theorem no_negative_caching_witness :
    ttl1Msg.rcode = RcodeSuccess :=
  no_negative_caching.1 (fun _ _ _ => (ttl1Msg, "fast")) (fun _ _ _ => (none, false))
    reqMsg "udp" ttl1Msg (by decide)

/-- The capacity field is unchanged by a lookup. -/
lemma lookup_cap (c : DnsCache) (now : Nat) (k : CacheKey) :
    ((c.lookup now k).2).cap = c.cap := by
  unfold DnsCache.lookup
  split <;> rfl

/-- The capacity field is unchanged by a set. -/
lemma set_cap (c : DnsCache) (now : Nat) (k : CacheKey) (m : Msg) :
    (c.set now k m).cap = c.cap := by
  unfold DnsCache.set
  split <;> rfl

/-- The capacity field is unchanged by any sequence of operations. -/
lemma run_cap (ops : List CacheOp) : ∀ c : DnsCache, (c.run ops).cap = c.cap := by
  induction ops with
  | nil => intro c; rfl
  | cons op ops ih =>
    intro c
    cases op with
    | look now k => rw [DnsCache.run, ih, lookup_cap]
    | put now k m => rw [DnsCache.run, ih, set_cap]

/-- A set never grows the store beyond capacity. -/
lemma set_length_le (c : DnsCache) (now : Nat) (k : CacheKey) (m : Msg)
    (h0 : 0 < c.cap) (h : c.entries.length ≤ c.cap) :
    (c.set now k m).entries.length ≤ c.cap := by
  unfold DnsCache.set
  by_cases hany : (c.entries.any fun p => decide (p.1 = k)) = true
  · simp only [hany, if_true]
    obtain ⟨p, hp, hpk⟩ : ∃ p ∈ c.entries, decide (p.1 = k) = true := by
      simpa using hany
    have hlt : (c.entries.filter fun x => !decide (x.1 = k)).length < c.entries.length :=
      List.length_filter_lt_length_iff_exists.mpr ⟨p, hp, by simp [hpk]⟩
    simp only [List.length_cons]
    omega
  · simp only [hany, Bool.false_eq_true, if_false]
    by_cases hcap : c.cap ≤ c.entries.length
    · simp only [hcap, if_true, List.length_cons, List.length_dropLast]
      omega
    · simp only [hcap, if_false, List.length_cons]
      omega

/-- A lookup never grows the store beyond capacity. -/
lemma lookup_length_le (c : DnsCache) (now : Nat) (k : CacheKey)
    (h : c.entries.length ≤ c.cap) :
    ((c.lookup now k).2).entries.length ≤ c.cap := by
  unfold DnsCache.lookup
  cases hf : c.entries.find? (fun p => decide (p.1 = k)) with
  | none => exact h
  | some p =>
    have hpk := List.find?_some hf
    have hp := List.mem_of_find?_eq_some hf
    have hlt : (c.entries.filter fun x => !decide (x.1 = k)).length < c.entries.length :=
      List.length_filter_lt_length_iff_exists.mpr ⟨p, hp, by simp [hpk]⟩
    show ((k, p.2) :: c.entries.filter fun x => !decide (x.1 = k)).length ≤ c.cap
    simp only [List.length_cons]
    omega

/-- Any sequence of operations preserves the capacity bound. -/
lemma run_length_le (ops : List CacheOp) : ∀ c : DnsCache, 0 < c.cap →
    c.entries.length ≤ c.cap → (c.run ops).entries.length ≤ c.cap := by
  induction ops with
  | nil => intro c _ h; exact h
  | cons op ops ih =>
    intro c h0 h
    cases op with
    | look now k =>
      rw [DnsCache.run]
      have h2 := ih ((c.lookup now k).2)
      rw [lookup_cap] at h2
      exact h2 h0 (lookup_length_le c now k h)
    | put now k m =>
      rw [DnsCache.run]
      have h2 := ih (c.set now k m)
      rw [set_cap] at h2
      exact h2 h0 (set_length_le c now k m h0 h)

/-- Taking n of an append where the right part is already truncated at n. -/
lemma take_append_take (A B : List α) (n : Nat) :
    (A ++ B.take n).take n = (A ++ B).take n := by
  rw [List.take_append_eq_append_take, List.take_append_eq_append_take, List.take_take]
  simp [Nat.min_def]

/-- Inserting a brand-new key keeps the most recent `cap` keys, newest
first. -/
lemma keys_set_fresh (c : DnsCache) (now : Nat) (k : CacheKey) (m : Msg)
    (h0 : 0 < c.cap) (hlen : c.entries.length ≤ c.cap) (hfresh : k ∉ c.keys) :
    (c.set now k m).keys = (k :: c.keys).take c.cap := by
  have hany : (c.entries.any fun p => decide (p.1 = k)) = false := by
    rw [Bool.eq_false_iff]
    intro hc
    obtain ⟨p, hp, hpk⟩ : ∃ p ∈ c.entries, decide (p.1 = k) = true := by
      simpa using hc
    exact hfresh (List.mem_map.mpr ⟨p, hp, of_decide_eq_true hpk⟩)
  obtain ⟨n, hn⟩ : ∃ n, c.cap = n + 1 := ⟨c.cap - 1, by omega⟩
  unfold DnsCache.set DnsCache.keys
  simp only [hany, Bool.false_eq_true, if_false, List.map_cons]
  by_cases hcap : c.cap ≤ c.entries.length
  · have hlen2 : c.entries.length = c.cap := le_antisymm hlen hcap
    rw [hn] at hcap hlen2 ⊢
    rw [if_pos hcap, List.take_succ_cons]
    congr 1
    rw [List.map_dropLast, List.dropLast_eq_take]
    congr 1
    simp [hlen2]
  · rw [hn] at hcap ⊢
    rw [if_neg hcap, List.take_succ_cons]
    congr 1
    refine (List.take_of_length_le ?_).symm
    simp only [List.length_map]
    omega

/-- Running a sequence of fresh-key inserts leaves the most recent `cap`
keys, newest first. -/
lemma keys_run_puts (t : Nat) (f : CacheKey → Msg) :
    ∀ (ks : List CacheKey) (c : DnsCache), 0 < c.cap → c.entries.length ≤ c.cap →
      ks.Nodup → (∀ k ∈ ks, k ∉ c.keys) →
      (c.run (puts t f ks)).keys = (ks.reverse ++ c.keys).take c.cap := by
  intro ks
  induction ks with
  | nil =>
    intro c h0 hlen _ _
    simp only [puts, List.map_nil, DnsCache.run, List.reverse_nil, List.nil_append]
    refine (List.take_of_length_le ?_).symm
    simpa [DnsCache.keys] using hlen
  | cons k ks ih =>
    intro c h0 hlen hnd hfresh
    have hkfresh : k ∉ c.keys := hfresh k (List.mem_cons_self _ _)
    have hset := keys_set_fresh c t k (f k) h0 hlen hkfresh
    have hcap2 : (c.set t k (f k)).cap = c.cap := set_cap c t k (f k)
    have h0x : 0 < (c.set t k (f k)).cap := by rw [hcap2]; exact h0
    have hlenx : (c.set t k (f k)).entries.length ≤ (c.set t k (f k)).cap := by
      rw [hcap2]
      exact set_length_le c t k (f k) h0 hlen
    have hfreshx : ∀ k2 ∈ ks, k2 ∉ (c.set t k (f k)).keys := by
      intro k2 hk2 hmem
      rw [hset] at hmem
      have hmem2 : k2 ∈ k :: c.keys := List.take_subset _ _ hmem
      rcases List.mem_cons.mp hmem2 with h2 | h2
      · exact (List.nodup_cons.mp hnd).1 (h2 ▸ hk2)
      · exact hfresh k2 (List.mem_cons_of_mem _ hk2) h2
    have hrun := ih (c.set t k (f k)) h0x hlenx (List.nodup_cons.mp hnd).2 hfreshx
    have hstep : c.run (puts t f (k :: ks)) = (c.set t k (f k)).run (puts t f ks) := rfl
    rw [hstep, hrun, hset, hcap2, take_append_take]
    simp [List.append_assoc]

/-- C6: the cache never holds more than its capacity of live entries under
any operation sequence; inserting a brand-new key at capacity evicts
exactly the least-recently-used entry; and after inserting capacity-plus-
one distinct questions into a fresh cache, the first (never looked up
again) is absent while the remaining capacity-many are all present. -/
theorem cache_capacity_lru :
    (∀ (c : DnsCache) (ops : List CacheOp), 0 < c.cap → c.entries.length ≤ c.cap →
      (c.run ops).entries.length ≤ c.cap) ∧
    (∀ (c : DnsCache) (now : Nat) (k : CacheKey) (m : Msg),
      0 < c.cap → c.entries.length = c.cap → k ∉ c.keys →
      (c.set now k m).entries.length = c.cap ∧
      (c.set now k m).keys = k :: c.keys.dropLast) ∧
    (∀ (cap t now : Nat) (k0 : CacheKey) (rest : List CacheKey) (f : CacheKey → Msg),
      0 < cap → (k0 :: rest).Nodup → rest.length = cap →
      (((newDNSCache cap).run (puts t f (k0 :: rest))).lookup now k0).1.1 = none ∧
      (∀ k ∈ rest,
        (((newDNSCache cap).run (puts t f (k0 :: rest))).lookup now k).1.1 ≠ none)) := by
  refine ⟨fun c ops h0 h => run_length_le ops c h0 h, ?_, ?_⟩
  · intro c now k m h0 hlen hfresh
    have hkeys := keys_set_fresh c now k m h0 (le_of_eq hlen) hfresh
    obtain ⟨n, hn⟩ : ∃ n, c.cap = n + 1 := ⟨c.cap - 1, by omega⟩
    constructor
    · have hkl := congrArg List.length hkeys
      simp only [DnsCache.keys, List.length_map, List.length_take, List.length_cons] at hkl
      omega
    · rw [hkeys, hn, List.take_succ_cons]
      congr 1
      rw [List.dropLast_eq_take]
      congr 1
      simp [DnsCache.keys, hlen, hn]
  · intro cap t now k0 rest f h0 hnd hrest
    have hkeys := keys_run_puts t f (k0 :: rest) (newDNSCache cap)
      (by simpa [newDNSCache] using h0) (by simp [newDNSCache])
      hnd (by simp [newDNSCache, DnsCache.keys])
    have hkeys2 : ((newDNSCache cap).run (puts t f (k0 :: rest))).keys = rest.reverse := by
      rw [hkeys]
      show ((k0 :: rest).reverse ++ ([] : List CacheKey)).take cap = rest.reverse
      rw [List.append_nil, List.reverse_cons, ← hrest, ← List.length_reverse]
      exact List.take_left _ _
    constructor
    · unfold DnsCache.lookup
      have hf : ((newDNSCache cap).run (puts t f (k0 :: rest))).entries.find?
          (fun p => decide (p.1 = k0)) = none := by
        rw [List.find?_eq_none]
        intro p hp hpk
        have hmem : p.1 ∈ ((newDNSCache cap).run (puts t f (k0 :: rest))).keys :=
          List.mem_map.mpr ⟨p, hp, rfl⟩
        rw [hkeys2, List.mem_reverse, of_decide_eq_true hpk] at hmem
        exact (List.nodup_cons.mp hnd).1 hmem
      rw [hf]
    · intro k hk hnone
      have hkmem : k ∈ ((newDNSCache cap).run (puts t f (k0 :: rest))).keys := by
        rw [hkeys2, List.mem_reverse]
        exact hk
      obtain ⟨p, hp, hpk⟩ := List.mem_map.mp hkmem
      unfold DnsCache.lookup at hnone
      cases hf : ((newDNSCache cap).run (puts t f (k0 :: rest))).entries.find?
          (fun x => decide (x.1 = k)) with
      | none =>
        have := List.find?_eq_none.mp hf p hp
        simp [hpk] at this
      | some pe =>
        rw [hf] at hnone
        simp at hnone

theorem cache_capacity_lru_witness :
    ((newDNSCache 1).run [CacheOp.put 0 sampleKey ttl1Msg,
        CacheOp.put 0 sampleKey2 ttl1Msg]).entries.length ≤ (newDNSCache 1).cap :=
  cache_capacity_lru.1 (newDNSCache 1)
    [CacheOp.put 0 sampleKey ttl1Msg, CacheOp.put 0 sampleKey2 ttl1Msg]
    (by decide) (by decide)

end FreeDNS
